import Mathlib

/-!
Verification of the label-merging core of `amazon_blanket_orders_v8.py`.

The embedding models PDF documents shallowly:
* a shipping-label PDF is `Option (List String)` — `none` when the bytes cannot
  be opened as a PDF at all, otherwise the list of per-page extracted texts;
* a manufacturing-label PDF is `Option Nat` — `none` when unreadable, otherwise
  its page count (its pages carry no data the merge inspects);
* a merged output page is `Sum Nat Nat`: `Sum.inl i` is page `i` of the shipping
  PDF, `Sum.inr m` is page `m` of the manufacturing PDF;
* the order table is the list of its `Order ID` column values, one per row
  (the only column the merge functions read).
-/

namespace ABOD

/-! ### Text normalizer: `clean_text`
Faithful model of `re.sub` for the four fixed patterns used by `clean_text`,
operating on `List Char`.  `re.sub` scans left to right, replacing each
leftmost non-overlapping match and continuing after it. -/

/-- Python `\s` on the ASCII whitespace characters. -/
def isPySpace (c : Char) : Bool :=
  c = ' ' || c = '\t' || c = '\n' || c = '\x0d' || c = '\x0b' || c = '\x0c'

/-- The character class `[A-Fa-f0-9]`. -/
def isHexDigitCh (c : Char) : Bool :=
  c.isDigit || ('a' ≤ c && c ≤ 'f') || ('A' ≤ c && c ≤ 'F')

/-- Length of a match of `\(#?[A-Fa-f0-9]{3,6}\)` at the head of `cs`, if any.
A match is `(`, an optional `#`, a maximal run of 3–6 hex digits, then `)`;
if the hex run is longer than 6 the character after any 3–6 of them is a hex
digit, not `)`, so the pattern cannot match there. -/
def matchColorLen (cs : List Char) : Option Nat :=
  match cs with
  | '(' :: rest =>
    let hashLen : Nat := match rest with | '#' :: _ => 1 | _ => 0
    let body := rest.drop hashLen
    let run := body.takeWhile isHexDigitCh
    if 3 ≤ run.length && run.length ≤ 6 then
      match body.drop run.length with
      | ')' :: _ => some (1 + hashLen + run.length + 1)
      | _ => none
    else none
  | _ => none

/-- Does `cs` start with `p`? -/
def startsWithChars : List Char → List Char → Bool
  | [], _ => true
  | _ :: _, [] => false
  | p :: ps, c :: cs => p = c && startsWithChars ps cs

/-- The alternatives of the literal pattern `■|Seller Name|Your Orders|Returning your item:`. -/
def bannedLits : List (List Char) :=
  ["■".data, "Seller Name".data, "Your Orders".data, "Returning your item:".data]

/-- First alternative (in regex alternation order) matching at the head of `cs`. -/
def firstLitLen (lits : List (List Char)) (cs : List Char) : Option Nat :=
  match lits with
  | [] => none
  | l :: r => if startsWithChars l cs then some l.length else firstLitLen r cs

def matchLitsLen (cs : List Char) : Option Nat := firstLitLen bannedLits cs

/-- Length of a case-insensitive match of `\(Most popular\)` at the head of `cs`. -/
def matchMostPopLen (cs : List Char) : Option Nat :=
  let pat := "(most popular)".data
  if (cs.take pat.length).map Char.toLower = pat then some pat.length else none

/-- One `re.sub` pass deleting every leftmost non-overlapping match found by
`f` (which reports the positive length of a match at the head of its argument).
The fuel argument equals the length of the remaining text; every pattern used
here matches at least one character, so fuel never runs out. -/
def subPatternAux (f : List Char → Option Nat) : Nat → List Char → List Char
  | 0, cs => cs
  | _ + 1, [] => []
  | fuel + 1, c :: cs =>
    match f (c :: cs) with
    | some n => subPatternAux f fuel (cs.drop (n - 1))
    | none => c :: subPatternAux f fuel cs

def subPattern (f : List Char → Option Nat) (cs : List Char) : List Char :=
  subPatternAux f cs.length cs

/-- `re.sub(r"\s{2,}", " ", ·)`: replace each maximal run of two or more
whitespace characters by a single space. -/
def subSpacesAux : Nat → List Char → List Char
  | 0, cs => cs
  | _ + 1, [] => []
  | fuel + 1, c :: cs =>
    if isPySpace c && (match cs with | d :: _ => isPySpace d | [] => false) then
      ' ' :: subSpacesAux fuel (cs.dropWhile isPySpace)
    else
      c :: subSpacesAux fuel cs

def subSpaces (cs : List Char) : List Char := subSpacesAux cs.length cs

/-- Python `str.strip()` on the model whitespace class. -/
def stripChars (cs : List Char) : List Char :=
  ((cs.dropWhile isPySpace).reverse.dropWhile isPySpace).reverse

/-- `clean_text` from the source: falsy (empty) input yields `""`; otherwise
remove color codes, banned literals and `(Most popular)`, collapse whitespace
runs, and strip. -/
def clean_text (s : String) : String :=
  if s = "" then ""
  else
    let cs1 := subPattern matchColorLen s.data
    let cs2 := subPattern matchLitsLen cs1
    let cs3 := subPattern matchMostPopLen cs2
    let cs4 := subSpaces cs3
    String.mk (stripChars cs4)

/-! ### Order-ID extraction: `extract_order_ids_from_shipping_pdf`
The regex is `\b(\d{3}-\d{7}-\d{7})\b`; `findall(...)[0]` takes the leftmost
match on the page's extracted text. -/

/-- Python regex word character (`\w` boundary test for `\b`). -/
def isWordChar (c : Char) : Bool := c.isAlphanum || c = '_'

/-- Take exactly `n` digits from the head of the list. -/
def takeDigits : Nat → List Char → Option (List Char × List Char)
  | 0, cs => some ([], cs)
  | _ + 1, [] => none
  | n + 1, c :: cs =>
    if c.isDigit then
      match takeDigits n cs with
      | some (ds, rest) => some (c :: ds, rest)
      | none => none
    else none

/-- Match `\d{3}-\d{7}-\d{7}\b` at the head of `cs` and return the matched text. -/
def matchOrderIdAt (cs : List Char) : Option String :=
  match takeDigits 3 cs with
  | some (d1, '-' :: r1) =>
    match takeDigits 7 r1 with
    | some (d2, '-' :: r2) =>
      match takeDigits 7 r2 with
      | some (d3, rest) =>
        let boundaryOk : Bool := match rest with | c :: _ => !isWordChar c | [] => true
        if boundaryOk then some (String.mk (d1 ++ '-' :: d2 ++ '-' :: d3)) else none
      | none => none
    | _ => none
  | _ => none

/-- Scan for the leftmost match of the order-id pattern; `prev` is the
character before the current position, for the leading `\b`. -/
def findOrderIdAux : Option Char → List Char → Option String
  | _, [] => none
  | prev, c :: cs =>
    let atBoundary : Bool := match prev with | none => true | some p => !isWordChar p
    if atBoundary then
      match matchOrderIdAt (c :: cs) with
      | some oid => some oid
      | none => findOrderIdAux (some c) cs
    else findOrderIdAux (some c) cs

/-- First order id found in a page's extracted text, if any. -/
def findOrderId (s : String) : Option String := findOrderIdAux none s.data

/-- The `for page_idx, page in enumerate(pdf.pages)` loop body:
each page yields `(page_idx, matches[0])`, or `(page_idx, None)` when the
pattern does not occur. -/
def extractLabels (startIdx : Nat) : List String → List (Nat × Option String)
  | [] => []
  | t :: rest => (startIdx, findOrderId t) :: extractLabels (startIdx + 1) rest

/-- `extract_order_ids_from_shipping_pdf`: a whole-document read failure is
caught and yields `[]` (after showing an error); otherwise one entry per page. -/
def extract_order_ids_from_shipping_pdf (shippingDoc : Option (List String)) :
    List (Nat × Option String) :=
  match shippingDoc with
  | none => []
  | some pages => extractLabels 0 pages

/-! ### Association-list model of the Python dicts (insertion-ordered). -/

def alookup {α : Type} : List (String × α) → String → Option α
  | [], _ => none
  | p :: r, k => if p.1 = k then some p.2 else alookup r k

/-- `d[k] = v` on an insertion-ordered dict: overwrite in place, else append. -/
def insertOverwrite (m : List (String × Nat)) (k : String) (v : Nat) : List (String × Nat) :=
  if m.any (fun p => decide (p.1 = k)) then
    m.map (fun p => if p.1 = k then (k, v) else p)
  else m ++ [(k, v)]

/-- Step of the `shipping_order_map` construction loop. -/
def shipMapStep (m : List (String × Nat)) (p : Nat × Option String) : List (String × Nat) :=
  match p.2 with
  | some oid => insertOverwrite m oid p.1
  | none => m

/-- Step 3 of `validate_label_mapping`: `shipping_order_map[order_id] = page_idx`
for each readable label, so a later page with the same id overwrites an earlier one. -/
def shippingOrderMap (labels : List (Nat × Option String)) : List (String × Nat) :=
  labels.foldl shipMapStep []

/-- Body of the `seen_orders` accumulation loop. -/
def addSeen (seen : List String) (oid : String) : List String :=
  if oid ∈ seen then seen else seen ++ [oid]

/-- Distinct order ids of the table, in first-occurrence order. -/
def seenOrders (rows : List String) : List String := rows.foldl addSeen []

/-- `order_item_counts[order_id] = len(order_dataframe[order_dataframe['Order ID'] == order_id])`. -/
def orderItemCount (rows : List String) (oid : String) : Nat :=
  (rows.filter (fun r => decide (r = oid))).length

/-- Python `list(range(m, m + c))`. -/
def pageRange : Nat → Nat → List Nat
  | _, 0 => []
  | m, c + 1 => m :: pageRange (m + 1) c

/-- One entry of `validation_report['mapping']`. -/
structure MappingInfo where
  shipping_page : Nat
  mfg_pages : List Nat
  item_count : Nat
deriving DecidableEq, Repr

/-- Step 5 of `validate_label_mapping`: walk `seen_orders` keeping a running
`mfg_index`; orders with a shipping label get a mapping entry, and `mfg_index`
always advances to maintain alignment. -/
def buildMapping (counts : String → Nat) (sMap : List (String × Nat)) :
    List String → Nat → List (String × MappingInfo)
  | [], _ => []
  | oid :: rest, mfgIndex =>
    let c := counts oid
    match alookup sMap oid with
    | some sp => (oid, ⟨sp, pageRange mfgIndex c, c⟩) :: buildMapping counts sMap rest (mfgIndex + c)
    | none => buildMapping counts sMap rest (mfgIndex + c)

/-- The validation report returned by `validate_label_mapping` (the `summary`
string is omitted; it is derived from the fields below after `is_valid` is set). -/
structure ValidationReport where
  is_valid : Bool
  shipping_labels : List (Nat × Option String)
  expected_orders : List String
  matched_orders : List String
  missing_labels : List String
  extra_labels : List String
  unreadable_labels : List Nat
  mapping : List (String × MappingInfo)
  warnings : List String
  errors : List String
deriving DecidableEq, Repr

def validate_label_mapping (shippingDoc : Option (List String)) (rows : List String) :
    ValidationReport :=
  let shipping_labels := extract_order_ids_from_shipping_pdf shippingDoc
  let unreadable := (shipping_labels.filter (fun p => p.2.isNone)).map (fun p => p.1)
  let warnUnreadable := unreadable.map (fun i =>
    "Shipping label page " ++ toString (i + 1) ++ ": Could not extract Order ID")
  let seen := seenOrders rows
  let sMap := shippingOrderMap shipping_labels
  let matched := seen.filter (fun oid => (alookup sMap oid).isSome)
  let missing := seen.filter (fun oid => (alookup sMap oid).isNone)
  let errorsMissing := missing.map (fun oid => "Order " ++ oid ++ ": No shipping label found")
  let extraPairs := sMap.filter (fun p => !(seen.contains p.1))
  let extra := extraPairs.map (fun p => p.1)
  let warnExtra := extraPairs.map (fun p =>
    "Shipping label page " ++ toString (p.2 + 1) ++ " (" ++ p.1 ++ "): Not found in manufacturing orders")
  let mapping := buildMapping (orderItemCount rows) sMap seen 0
  let valid := missing.isEmpty && unreadable.isEmpty
  ⟨valid, shipping_labels, seen, matched, missing, extra, unreadable, mapping,
    warnUnreadable ++ warnExtra, errorsMissing⟩

/-! ### Safe merge: `merge_shipping_and_manufacturing_labels_safe` -/

/-- The three kinds of `merge_log` entries appended by the safe merge:
skipped order (shipping page out of range), manufacturing page out of range,
and the per-order success line with its manufacturing-label count. -/
inductive LogEntry where
  | skippedOrder : String → Nat → LogEntry
  | mfgOutOfRange : String → Nat → LogEntry
  | mergedOrder : String → Nat → LogEntry
deriving DecidableEq, Repr

inductive Mode where
  | strict : Mode
  | flexible : Mode
deriving DecidableEq, Repr

/-- The `merge_details` dict (its `message` string omitted; `success` and the
counts determine it). -/
structure MergeDetails where
  success : Bool
  merged_count : Nat
  mfg_labels_added : Nat
  log : List LogEntry
  skipped_orders : List String
deriving DecidableEq, Repr

/-- The tuple returned by the safe merge:
`(merged_pdf_buffer, merged_count, mfg_labels_added, merge_details)`. -/
structure MergeOutcome where
  output : Option (List (Sum Nat Nat))
  num_shipping : Nat
  num_manufacturing : Nat
  details : MergeDetails
deriving DecidableEq, Repr

/-- Inner loop over one order's `mfg_pages`: emits the in-range pages,
counts them, and logs each out-of-range index. -/
def addMfgPages (mfgLen : Nat) (oid : String) :
    List Nat → List (Sum Nat Nat) × Nat × List LogEntry
  | [] => ([], 0, [])
  | m :: rest =>
    let r := addMfgPages mfgLen oid rest
    if m < mfgLen then (Sum.inr m :: r.1, r.2.1 + 1, r.2.2)
    else (r.1, r.2.1, LogEntry.mfgOutOfRange oid m :: r.2.2)

/-- Main loop over `validation_report['mapping'].items()`:
returns (output pages, merged_count, mfg_labels_added, merge_log). -/
def mergeLoop (shipLen mfgLen : Nat) :
    List (String × MappingInfo) → List (Sum Nat Nat) × Nat × Nat × List LogEntry
  | [] => ([], 0, 0, [])
  | (oid, info) :: rest =>
    let r := mergeLoop shipLen mfgLen rest
    if shipLen ≤ info.shipping_page then
      (r.1, r.2.1, r.2.2.1, LogEntry.skippedOrder oid info.shipping_page :: r.2.2.2)
    else
      let a := addMfgPages mfgLen oid info.mfg_pages
      (Sum.inl info.shipping_page :: (a.1 ++ r.1),
       r.2.1 + 1,
       r.2.2.1 + a.2.1,
       a.2.2 ++ (LogEntry.mergedOrder oid a.2.1 :: r.2.2.2))

def merge_shipping_and_manufacturing_labels_safe
    (shippingDoc : Option (List String)) (manufacturingDoc : Option Nat)
    (report : ValidationReport) (mode : Mode) : MergeOutcome :=
  match mode, report.is_valid with
  | Mode.strict, false => ⟨none, 0, 0, ⟨false, 0, 0, [], []⟩⟩
  | _, _ =>
    match shippingDoc, manufacturingDoc with
    | some shipPages, some mfgLen =>
      let r := mergeLoop shipPages.length mfgLen report.mapping
      ⟨some r.1, r.2.1, r.2.2.1, ⟨true, r.2.1, r.2.2.1, r.2.2.2, report.missing_labels⟩⟩
    | _, _ => ⟨none, 0, 0, ⟨false, 0, 0, [], []⟩⟩

/-! ### Legacy merge: `merge_shipping_and_manufacturing_labels` -/

def nlookup {α : Type} : List (Nat × α) → Nat → Option α
  | [], _ => none
  | p :: r, k => if p.1 = k then some p.2 else nlookup r k

/-- `shipping_to_mfg[shipping_index] = list(range(mfg_index, mfg_index + item_count))`. -/
def legacyS2M : List Nat → Nat → Nat → List (Nat × List Nat)
  | [], _, _ => []
  | c :: rest, shipIdx, mfgIndex =>
    (shipIdx, pageRange mfgIndex c) :: legacyS2M rest (shipIdx + 1) (mfgIndex + c)

/-- The legacy output loop: `for ship_idx in range(total)`, breaking at the
first index past the shipping PDF, emitting each shipping page followed by its
in-range manufacturing pages. -/
def legacyLoop (shipLen mfgLen : Nat) (s2m : List (Nat × List Nat)) :
    List Nat → List (Sum Nat Nat)
  | [] => []
  | i :: rest =>
    if shipLen ≤ i then []
    else
      (Sum.inl i ::
        (match nlookup s2m i with
         | some ms => (ms.filter (fun m => decide (m < mfgLen))).map Sum.inr
         | none => []))
      ++ legacyLoop shipLen mfgLen s2m rest

def merge_shipping_and_manufacturing_labels
    (shippingDoc : Option (List String)) (manufacturingDoc : Option Nat)
    (rows : List String) : Option (List (Sum Nat Nat)) × Nat × Nat :=
  match shippingDoc, manufacturingDoc with
  | some shipPages, some mfgLen =>
    let counts := (seenOrders rows).map (orderItemCount rows)
    let s2m := legacyS2M counts 0 0
    let out := legacyLoop shipPages.length mfgLen s2m (pageRange 0 s2m.length)
    (some out, s2m.length, (s2m.map (fun p => p.2.length)).sum)
  | _, _ => (none, 0, 0)

/-! ### Output-page projections used by the claims. -/

/-- Shipping-page indices of an output, in emission order. -/
def shipIndices (l : List (Sum Nat Nat)) : List Nat :=
  l.filterMap (fun x => match x with | Sum.inl i => some i | Sum.inr _ => none)

/-- Manufacturing-page indices of an output, in emission order. -/
def mfgIndices (l : List (Sum Nat Nat)) : List Nat :=
  l.filterMap (fun x => match x with | Sum.inl _ => none | Sum.inr m => some m)

/-! ### Basic lemmas about the range, extraction and map models. -/

theorem pageRange_length (m c : Nat) : (pageRange m c).length = c := by
  induction c generalizing m with
  | zero => rfl
  | succ c ih => simp [pageRange, ih]

theorem mem_pageRange {x m c : Nat} : x ∈ pageRange m c ↔ m ≤ x ∧ x < m + c := by
  induction c generalizing m with
  | zero => simp [pageRange]
  | succ c ih =>
    simp only [pageRange, List.mem_cons, ih]
    omega

theorem pageRange_pairwise (m c : Nat) : (pageRange m c).Pairwise (· < ·) := by
  induction c generalizing m with
  | zero => exact List.Pairwise.nil
  | succ c ih =>
    refine List.pairwise_cons.mpr ⟨fun y hy => ?_, ih (m + 1)⟩
    have := mem_pageRange.mp hy
    omega

theorem extractLabels_length (pages : List String) (n : Nat) :
    (extractLabels n pages).length = pages.length := by
  induction pages generalizing n with
  | nil => rfl
  | cons t rest ih => simp [extractLabels, ih]

theorem mem_extractLabels_lb {pages : List String} {n i : Nat} {o : Option String}
    (h : (i, o) ∈ extractLabels n pages) : n ≤ i := by
  induction pages generalizing n with
  | nil => simp [extractLabels] at h
  | cons t rest ih =>
    simp only [extractLabels, List.mem_cons] at h
    rcases h with h | h
    · cases h; exact Nat.le_refl _
    · exact Nat.le_of_succ_le (ih h)

theorem extractLabels_functional {pages : List String} {n i : Nat} {o o' : Option String}
    (h : (i, o) ∈ extractLabels n pages) (h' : (i, o') ∈ extractLabels n pages) : o = o' := by
  induction pages generalizing n with
  | nil => simp [extractLabels] at h
  | cons t rest ih =>
    simp only [extractLabels, List.mem_cons, Prod.mk.injEq] at h h'
    rcases h with ⟨hi, ho⟩ | h
    · rcases h' with ⟨_, ho'⟩ | h'
      · rw [ho, ho']
      · subst hi; exact absurd (mem_extractLabels_lb h') (by omega)
    · rcases h' with ⟨hi', _⟩ | h'
      · subst hi'; exact absurd (mem_extractLabels_lb h) (by omega)
      · exact ih h h'

theorem extractLabels_eq_enumFrom (pages : List String) (n : Nat) :
    extractLabels n pages = (pages.map findOrderId).enumFrom n := by
  induction pages generalizing n with
  | nil => rfl
  | cons t rest ih => simp [extractLabels, List.enumFrom, ih]

theorem alookup_mem {α : Type} {m : List (String × α)} {k : String} {v : α}
    (h : alookup m k = some v) : (k, v) ∈ m := by
  induction m with
  | nil => simp [alookup] at h
  | cons p rest ih =>
    obtain ⟨p1, p2⟩ := p
    by_cases hk : p1 = k
    · simp only [alookup, if_pos hk] at h
      injection h with h2
      subst h2
      subst hk
      exact List.mem_cons_self _ _
    · simp only [alookup, if_neg hk] at h
      exact List.mem_cons_of_mem _ (ih h)

theorem mem_insertOverwrite {m : List (String × Nat)} {k : String} {v : Nat}
    {q : String × Nat} (h : q ∈ insertOverwrite m k v) :
    q = (k, v) ∨ (q ∈ m ∧ q.1 ≠ k) := by
  unfold insertOverwrite at h
  by_cases hany : m.any (fun p => decide (p.1 = k))
  · rw [if_pos hany] at h
    rcases List.mem_map.mp h with ⟨p, hp, hq⟩
    by_cases hpk : p.1 = k
    · left; rw [← hq, if_pos hpk]
    · right
      rw [← hq, if_neg hpk]
      exact ⟨hp, hpk⟩
  · rw [if_neg hany] at h
    rcases List.mem_append.mp h with h | h
    · right
      refine ⟨h, fun hk => ?_⟩
      exact hany (List.any_eq_true.mpr ⟨q, h, by simp [hk]⟩)
    · left; simpa using h

theorem alookup_append_of_none {α : Type} {m : List (String × α)} {k : String}
    (h : ∀ p ∈ m, p.1 ≠ k) (l : List (String × α)) :
    alookup (m ++ l) k = alookup l k := by
  induction m with
  | nil => rfl
  | cons p rest ih =>
    have hp : p.1 ≠ k := h p (List.mem_cons_self _ _)
    simp only [List.cons_append, alookup, if_neg hp]
    exact ih (fun q hq => h q (List.mem_cons_of_mem _ hq))

theorem alookup_append {α : Type} (m l : List (String × α)) (k : String) :
    alookup (m ++ l) k =
      match alookup m k with
      | some v => some v
      | none => alookup l k := by
  induction m with
  | nil => rfl
  | cons p rest ih =>
    by_cases hk : p.1 = k
    · simp only [List.cons_append, alookup, if_pos hk]
    · simp only [List.cons_append, alookup, if_neg hk]
      exact ih

theorem alookup_insertOverwrite_self (m : List (String × Nat)) (k : String) (v : Nat) :
    alookup (insertOverwrite m k v) k = some v := by
  unfold insertOverwrite
  by_cases hany : m.any (fun p => decide (p.1 = k))
  · rw [if_pos hany]
    rcases List.any_eq_true.mp hany with ⟨p, hp, hpk⟩
    have hpk : p.1 = k := by simpa using hpk
    clear hany
    induction m with
    | nil => simp at hp
    | cons q rest ih =>
      rcases List.mem_cons.mp hp with rfl | hp'
      · simp [alookup, hpk]
      · by_cases hqk : q.1 = k
        · simp [alookup, hqk]
        · simp only [List.map_cons, if_neg hqk, alookup, if_neg hqk]
          exact ih hp'
  · rw [if_neg hany]
    have hnone : ∀ p ∈ m, p.1 ≠ k := by
      intro p hp hk
      exact hany (List.any_eq_true.mpr ⟨p, hp, by simp [hk]⟩)
    rw [alookup_append_of_none hnone]
    simp [alookup]

theorem alookup_insertOverwrite_other {k k' : String} (hne : k' ≠ k)
    (m : List (String × Nat)) (v : Nat) :
    alookup (insertOverwrite m k v) k' = alookup m k' := by
  unfold insertOverwrite
  by_cases hany : m.any (fun p => decide (p.1 = k))
  · rw [if_pos hany]
    clear hany
    induction m with
    | nil => rfl
    | cons q rest ih =>
      by_cases hqk : q.1 = k
      · have hq' : ¬ (k = k') := fun h => hne h.symm
        simp only [List.map_cons, if_pos hqk, alookup, if_neg hq', if_neg (hqk ▸ hq' : ¬ q.1 = k')]
        exact ih
      · simp only [List.map_cons, if_neg hqk, alookup]
        by_cases hq' : q.1 = k'
        · simp [hq']
        · simp only [if_neg hq']
          exact ih
  · rw [if_neg hany, alookup_append]
    have hkv : alookup [(k, v)] k' = none := by
      have : ¬ k = k' := fun h => hne h.symm
      simp [alookup, this]
    rw [hkv]
    cases alookup m k' <;> rfl

/-- Value kept for key `k` after folding the labels: the page index of the
last label carrying that id, else the accumulator. -/
def lastIdFor (labels : List (Nat × Option String)) (k : String) (acc : Option Nat) :
    Option Nat :=
  labels.foldl (fun a p => if p.2 = some k then some p.1 else a) acc

theorem alookup_shipMapStep (m : List (String × Nat)) (p : Nat × Option String) (k : String) :
    alookup (shipMapStep m p) k = if p.2 = some k then some p.1 else alookup m k := by
  unfold shipMapStep
  cases hp : p.2 with
  | none => simp
  | some oid =>
    by_cases hk : oid = k
    · subst hk
      simp [alookup_insertOverwrite_self]
    · rw [alookup_insertOverwrite_other (fun h => hk h.symm)]
      have : ¬ (some oid = some k) := by simp [hk]
      rw [if_neg this]

theorem alookup_foldl_shipMapStep (labels : List (Nat × Option String)) :
    ∀ (m : List (String × Nat)) (k : String),
      alookup (labels.foldl shipMapStep m) k = lastIdFor labels k (alookup m k) := by
  induction labels with
  | nil => intro m k; rfl
  | cons p rest ih =>
    intro m k
    show alookup (rest.foldl shipMapStep (shipMapStep m p)) k =
      lastIdFor rest k (if p.2 = some k then some p.1 else alookup m k)
    rw [ih, alookup_shipMapStep]

theorem shippingOrderMap_alookup (labels : List (Nat × Option String)) (k : String) :
    alookup (shippingOrderMap labels) k = lastIdFor labels k none := by
  unfold shippingOrderMap
  rw [alookup_foldl_shipMapStep]
  rfl

theorem mem_foldl_shipMapStep {labels : List (Nat × Option String)} :
    ∀ {m : List (String × Nat)} {q : String × Nat},
      q ∈ labels.foldl shipMapStep m → q ∈ m ∨ (q.2, some q.1) ∈ labels := by
  induction labels with
  | nil => intro m q h; exact Or.inl h
  | cons p rest ih =>
    intro m q h
    rcases ih h with h' | h'
    · unfold shipMapStep at h'
      cases hp : p.2 with
      | none =>
        rw [hp] at h'
        exact Or.inl h'
      | some oid =>
        rw [hp] at h'
        rcases mem_insertOverwrite h' with rfl | ⟨hq, _⟩
        · right
          have hpeq : ((p.1 : Nat), some oid) = p := by
            rw [← hp]
          show (p.1, some oid) ∈ p :: rest
          rw [hpeq]
          exact List.mem_cons_self _ _
        · exact Or.inl hq
    · exact Or.inr (List.mem_cons_of_mem _ h')

theorem mem_shippingOrderMap {labels : List (Nat × Option String)} {q : String × Nat}
    (h : q ∈ shippingOrderMap labels) : (q.2, some q.1) ∈ labels := by
  rcases mem_foldl_shipMapStep h with h' | h'
  · simp at h'
  · exact h'

theorem lastIdFor_result {labels : List (Nat × Option String)} :
    ∀ {k : String} {acc : Option Nat} {v : Nat},
      lastIdFor labels k acc = some v → acc = some v ∨ (v, some k) ∈ labels := by
  induction labels with
  | nil => intro k acc v h; exact Or.inl h
  | cons p rest ih =>
    intro k acc v h
    have h : lastIdFor rest k (if p.2 = some k then some p.1 else acc) = some v := h
    rcases ih h with h' | h'
    · by_cases hc : p.2 = some k
      · rw [if_pos hc] at h'
        injection h' with h2
        right
        have : p = (v, some k) := by
          rcases p with ⟨p1, p2⟩
          simp only at hc h2
          rw [hc, h2]
        rw [← this]
        exact List.mem_cons_self _ _
      · rw [if_neg hc] at h'
        exact Or.inl h'
    · exact Or.inr (List.mem_cons_of_mem _ h')

theorem lastIdFor_extract_ge {pages : List String} :
    ∀ {n : Nat} {acc : Option Nat} {k : String} {v : Nat},
      lastIdFor (extractLabels n pages) k acc = some v →
      ∀ i, (i, some k) ∈ extractLabels n pages → i ≤ v := by
  induction pages with
  | nil => intro n acc k v _ i hi; simp [extractLabels] at hi
  | cons t rest ih =>
    intro n acc k v h i hi
    have hstep : lastIdFor (extractLabels (n + 1) rest) k
        (if findOrderId t = some k then some n else acc) = some v := h
    rcases List.mem_cons.mp hi with heq | hmem
    · have h1 : i = n := congrArg Prod.fst heq
      have hk : some k = findOrderId t := congrArg Prod.snd heq
      subst h1
      rw [if_pos hk.symm] at hstep
      rcases lastIdFor_result hstep with h' | h'
      · injection h' with h2
        omega
      · have := mem_extractLabels_lb h'
        omega
    · exact ih hstep i hmem

/-! ### Structure of `seen_orders` and of the validated mapping. -/

theorem foldl_addSeen_nodup (rows : List String) :
    ∀ acc : List String, acc.Nodup → (rows.foldl addSeen acc).Nodup := by
  induction rows with
  | nil => intro acc h; exact h
  | cons oid rest ih =>
    intro acc h
    refine ih (addSeen acc oid) ?_
    unfold addSeen
    by_cases hmem : oid ∈ acc
    · rw [if_pos hmem]; exact h
    · rw [if_neg hmem]
      refine List.nodup_append.mpr ⟨h, List.nodup_singleton _, ?_⟩
      intro a ha hb
      rcases List.mem_singleton.mp hb with rfl
      exact hmem ha

theorem seenOrders_nodup (rows : List String) : (seenOrders rows).Nodup :=
  foldl_addSeen_nodup rows [] List.nodup_nil

theorem buildMapping_mem {counts : String → Nat} {sMap : List (String × Nat)} :
    ∀ {seen : List String} {m0 : Nat} {k : String} {info : MappingInfo},
      (k, info) ∈ buildMapping counts sMap seen m0 →
      alookup sMap k = some info.shipping_page ∧
      ∃ m, info.mfg_pages = pageRange m (counts k) ∧ info.item_count = counts k := by
  intro seen
  induction seen with
  | nil => intro m0 k info h; simp [buildMapping] at h
  | cons oid rest ih =>
    intro m0 k info h
    unfold buildMapping at h
    cases hl : alookup sMap oid with
    | some sp =>
      rw [hl] at h
      rcases List.mem_cons.mp h with heq | hmem
      · injection heq with h1 h2
        rw [h1, h2, hl]
        exact ⟨rfl, m0, rfl, rfl⟩
      · exact ih hmem
    | none =>
      rw [hl] at h
      exact ih h

theorem buildMapping_keys_sublist (counts : String → Nat) (sMap : List (String × Nat)) :
    ∀ (seen : List String) (m0 : Nat),
      ((buildMapping counts sMap seen m0).map (fun e => e.1)).Sublist seen := by
  intro seen
  induction seen with
  | nil => intro m0; simp [buildMapping]
  | cons oid rest ih =>
    intro m0
    unfold buildMapping
    cases alookup sMap oid with
    | some sp =>
      simpa using List.Sublist.cons₂ oid (ih (m0 + counts oid))
    | none =>
      exact (ih (m0 + counts oid)).cons oid

theorem buildMapping_keys_nodup (rows : List String) (counts : String → Nat)
    (sMap : List (String × Nat)) (m0 : Nat) :
    ((buildMapping counts sMap (seenOrders rows) m0).map (fun e => e.1)).Nodup :=
  (seenOrders_nodup rows).sublist (buildMapping_keys_sublist counts sMap (seenOrders rows) m0)

/-- The concatenation of all `mfg_pages` lists of the validated mapping is
strictly increasing (consecutive ranges advancing with `mfg_index`). -/
theorem buildMapping_flat_sorted (counts : String → Nat) (sMap : List (String × Nat)) :
    ∀ (seen : List String) (m0 : Nat),
      (((buildMapping counts sMap seen m0).map (fun e => e.2.mfg_pages)).flatten.Pairwise (· < ·)) ∧
      (∀ x ∈ ((buildMapping counts sMap seen m0).map (fun e => e.2.mfg_pages)).flatten, m0 ≤ x) := by
  intro seen
  induction seen with
  | nil => intro m0; simp [buildMapping]
  | cons oid rest ih =>
    intro m0
    unfold buildMapping
    cases alookup sMap oid with
    | some sp =>
      simp only [List.map_cons, List.flatten]
      obtain ⟨ihs, ihb⟩ := ih (m0 + counts oid)
      constructor
      · refine List.pairwise_append.mpr ⟨pageRange_pairwise _ _, ihs, ?_⟩
        intro a ha b hb
        have h1 := (mem_pageRange.mp ha).2
        have h2 := ihb b hb
        omega
      · intro x hx
        rcases List.mem_append.mp hx with hx | hx
        · exact (mem_pageRange.mp hx).1
        · have := ihb x hx
          omega
    | none =>
      obtain ⟨ihs, ihb⟩ := ih (m0 + counts oid)
      exact ⟨ihs, fun x hx => by have := ihb x hx; omega⟩

/-! ### Structure of the safe-merge output. -/

/-- The page sequence the safe-merge loop emits: for each mapping entry with an
in-range shipping page, that shipping page followed by its in-range
manufacturing pages. -/
def flatJoin (shipLen mfgLen : Nat) : List (String × MappingInfo) → List (Sum Nat Nat)
  | [] => []
  | (_, info) :: rest =>
    if shipLen ≤ info.shipping_page then flatJoin shipLen mfgLen rest
    else Sum.inl info.shipping_page ::
      ((info.mfg_pages.filter (fun m => decide (m < mfgLen))).map Sum.inr
        ++ flatJoin shipLen mfgLen rest)

theorem addMfgPages_fst (mfgLen : Nat) (oid : String) (ms : List Nat) :
    (addMfgPages mfgLen oid ms).1 = (ms.filter (fun m => decide (m < mfgLen))).map Sum.inr := by
  induction ms with
  | nil => rfl
  | cons m rest ih =>
    unfold addMfgPages
    by_cases hm : m < mfgLen
    · simp [hm, List.filter_cons, ih]
    · simp [hm, List.filter_cons, ih]

theorem addMfgPages_log (mfgLen : Nat) (oid : String) (ms : List Nat) :
    ∀ mi ∈ ms, mfgLen ≤ mi → LogEntry.mfgOutOfRange oid mi ∈ (addMfgPages mfgLen oid ms).2.2 := by
  induction ms with
  | nil => intro mi h; simp at h
  | cons m rest ih =>
    intro mi hmi hge
    unfold addMfgPages
    rcases List.mem_cons.mp hmi with rfl | hmem
    · have : ¬ mi < mfgLen := by omega
      simp only [if_neg this]
      exact List.mem_cons_self _ _
    · by_cases hm : m < mfgLen
      · simp only [if_pos hm]
        exact ih mi hmem hge
      · simp only [if_neg hm]
        exact List.mem_cons_of_mem _ (ih mi hmem hge)

theorem mergeLoop_fst (shipLen mfgLen : Nat) :
    ∀ entries : List (String × MappingInfo),
      (mergeLoop shipLen mfgLen entries).1 = flatJoin shipLen mfgLen entries := by
  intro entries
  induction entries with
  | nil => rfl
  | cons e rest ih =>
    obtain ⟨oid, info⟩ := e
    unfold mergeLoop flatJoin
    by_cases hsp : shipLen ≤ info.shipping_page
    · simp only [if_pos hsp]
      exact ih
    · simp only [if_neg hsp, addMfgPages_fst, ih]

theorem mergeLoop_log (shipLen mfgLen : Nat) :
    ∀ (entries : List (String × MappingInfo)) (k : String) (info : MappingInfo),
      (k, info) ∈ entries → info.shipping_page < shipLen →
      ∀ mi ∈ info.mfg_pages, mfgLen ≤ mi →
        LogEntry.mfgOutOfRange k mi ∈ (mergeLoop shipLen mfgLen entries).2.2.2 := by
  intro entries
  induction entries with
  | nil => intro k info h; simp at h
  | cons e rest ih =>
    intro k info hmem hsp mi hmi hge
    obtain ⟨oid, einfo⟩ := e
    unfold mergeLoop
    rcases List.mem_cons.mp hmem with heq | hmem'
    · injection heq with h1 h2
      subst h1
      subst h2
      have : ¬ shipLen ≤ info.shipping_page := by omega
      simp only [if_neg this]
      exact List.mem_append.mpr (Or.inl (addMfgPages_log mfgLen k info.mfg_pages mi hmi hge))
    · by_cases hsp' : shipLen ≤ einfo.shipping_page
      · simp only [if_pos hsp']
        exact List.mem_cons_of_mem _ (ih k info hmem' hsp mi hmi hge)
      · simp only [if_neg hsp']
        refine List.mem_append.mpr (Or.inr ?_)
        exact List.mem_cons_of_mem _ (ih k info hmem' hsp mi hmi hge)

theorem flatJoin_mem_inl (shipLen mfgLen : Nat) :
    ∀ (entries : List (String × MappingInfo)) (k : String) (info : MappingInfo),
      (k, info) ∈ entries → info.shipping_page < shipLen →
      Sum.inl info.shipping_page ∈ flatJoin shipLen mfgLen entries := by
  intro entries
  induction entries with
  | nil => intro k info h; simp at h
  | cons e rest ih =>
    intro k info hmem hsp
    obtain ⟨oid, einfo⟩ := e
    unfold flatJoin
    rcases List.mem_cons.mp hmem with heq | hmem'
    · injection heq with h1 h2
      subst h1
      subst h2
      have : ¬ shipLen ≤ info.shipping_page := by omega
      simp only [if_neg this]
      exact List.mem_cons_self _ _
    · by_cases hsp' : shipLen ≤ einfo.shipping_page
      · simp only [if_pos hsp']
        exact ih k info hmem' hsp
      · simp only [if_neg hsp']
        exact List.mem_cons_of_mem _ (List.mem_append.mpr (Or.inr (ih k info hmem' hsp)))

theorem mfgIndices_append (a b : List (Sum Nat Nat)) :
    mfgIndices (a ++ b) = mfgIndices a ++ mfgIndices b := by
  simp [mfgIndices, List.filterMap_append]

theorem shipIndices_append (a b : List (Sum Nat Nat)) :
    shipIndices (a ++ b) = shipIndices a ++ shipIndices b := by
  simp [shipIndices, List.filterMap_append]

theorem mfgIndices_map_inr (xs : List Nat) : mfgIndices (xs.map Sum.inr) = xs := by
  induction xs with
  | nil => rfl
  | cons x rest ih =>
    simp only [List.map_cons, mfgIndices, List.filterMap_cons] at ih ⊢
    rw [ih]

theorem shipIndices_map_inr (xs : List Nat) : shipIndices (xs.map Sum.inr) = [] := by
  induction xs with
  | nil => rfl
  | cons x rest ih =>
    simp only [List.map_cons, shipIndices, List.filterMap_cons] at ih ⊢
    exact ih

theorem mfgIndices_cons_inl (i : Nat) (l : List (Sum Nat Nat)) :
    mfgIndices (Sum.inl i :: l) = mfgIndices l := by
  simp [mfgIndices, List.filterMap_cons]

theorem shipIndices_cons_inl (i : Nat) (l : List (Sum Nat Nat)) :
    shipIndices (Sum.inl i :: l) = i :: shipIndices l := by
  simp [shipIndices, List.filterMap_cons]

theorem mfgIndices_flatJoin (shipLen mfgLen : Nat) :
    ∀ entries : List (String × MappingInfo),
      mfgIndices (flatJoin shipLen mfgLen entries) =
        ((entries.filter (fun e => decide (e.2.shipping_page < shipLen))).map
          (fun e => e.2.mfg_pages.filter (fun m => decide (m < mfgLen)))).flatten := by
  intro entries
  induction entries with
  | nil => rfl
  | cons e rest ih =>
    obtain ⟨oid, info⟩ := e
    unfold flatJoin
    by_cases hsp : shipLen ≤ info.shipping_page
    · have hd : decide (info.shipping_page < shipLen) = false := by
        simp only [decide_eq_false_iff_not]
        omega
      rw [if_pos hsp, ih, List.filter_cons]
      simp [hd]
    · have hd : decide (info.shipping_page < shipLen) = true := by
        simp only [decide_eq_true_eq]
        omega
      rw [if_neg hsp, mfgIndices_cons_inl, mfgIndices_append, mfgIndices_map_inr, ih,
        List.filter_cons]
      simp [hd]

theorem shipIndices_flatJoin (shipLen mfgLen : Nat) :
    ∀ entries : List (String × MappingInfo),
      shipIndices (flatJoin shipLen mfgLen entries) =
        (entries.filter (fun e => decide (e.2.shipping_page < shipLen))).map
          (fun e => e.2.shipping_page) := by
  intro entries
  induction entries with
  | nil => rfl
  | cons e rest ih =>
    obtain ⟨oid, info⟩ := e
    unfold flatJoin
    by_cases hsp : shipLen ≤ info.shipping_page
    · have hd : decide (info.shipping_page < shipLen) = false := by
        simp only [decide_eq_false_iff_not]
        omega
      rw [if_pos hsp, ih, List.filter_cons]
      simp [hd]
    · have hd : decide (info.shipping_page < shipLen) = true := by
        simp only [decide_eq_true_eq]
        omega
      rw [if_neg hsp, shipIndices_cons_inl, shipIndices_append, shipIndices_map_inr, ih,
        List.filter_cons]
      simp [hd]

/-- The manufacturing pages the merge emits form a sublist of the
concatenation of all mapped `mfg_pages`. -/
theorem mfgIndices_flatJoin_sublist (shipLen mfgLen : Nat) :
    ∀ entries : List (String × MappingInfo),
      (mfgIndices (flatJoin shipLen mfgLen entries)).Sublist
        ((entries.map (fun e => e.2.mfg_pages)).flatten) := by
  intro entries
  induction entries with
  | nil => simp [flatJoin, mfgIndices]
  | cons e rest ih =>
    obtain ⟨oid, info⟩ := e
    unfold flatJoin
    simp only [List.map_cons, List.flatten_cons]
    by_cases hsp : shipLen ≤ info.shipping_page
    · rw [if_pos hsp]
      exact ih.trans (List.sublist_append_right _ _)
    · rw [if_neg hsp, mfgIndices_cons_inl, mfgIndices_append, mfgIndices_map_inr]
      exact (List.filter_sublist _).append ih

/-- Inversion of the safe merge: whenever a merged document is produced, it is
exactly the page sequence of the merge loop over the validated mapping. -/
theorem merge_safe_output_eq {pages : List String} {mfgLen : Nat}
    {report : ValidationReport} {mode : Mode} {out : List (Sum Nat Nat)}
    (h : (merge_shipping_and_manufacturing_labels_safe
        (some pages) (some mfgLen) report mode).output = some out) :
    out = flatJoin pages.length mfgLen report.mapping := by
  cases mode with
  | strict =>
    cases hv : report.is_valid with
    | false =>
      have h' : (none : Option (List (Sum Nat Nat))) = some out := by
        rw [← h]
        unfold merge_shipping_and_manufacturing_labels_safe
        rw [hv]
      exact Option.noConfusion h'
    | true =>
      have h' : some (mergeLoop pages.length mfgLen report.mapping).1 = some out := by
        rw [← h]
        unfold merge_shipping_and_manufacturing_labels_safe
        rw [hv]
      injection h' with h2
      rw [← h2, mergeLoop_fst]
  | flexible =>
    cases hv : report.is_valid with
    | false =>
      have h' : some (mergeLoop pages.length mfgLen report.mapping).1 = some out := by
        rw [← h]
        unfold merge_shipping_and_manufacturing_labels_safe
        rw [hv]
      injection h' with h2
      rw [← h2, mergeLoop_fst]
    | true =>
      have h' : some (mergeLoop pages.length mfgLen report.mapping).1 = some out := by
        rw [← h]
        unfold merge_shipping_and_manufacturing_labels_safe
        rw [hv]
      injection h' with h2
      rw [← h2, mergeLoop_fst]

/-- When the merge proceeds, the log is the merge-loop log. -/
theorem merge_safe_log_eq {pages : List String} {mfgLen : Nat}
    {report : ValidationReport} {mode : Mode} {out : List (Sum Nat Nat)}
    (h : (merge_shipping_and_manufacturing_labels_safe
        (some pages) (some mfgLen) report mode).output = some out) :
    (merge_shipping_and_manufacturing_labels_safe
        (some pages) (some mfgLen) report mode).details.log =
      (mergeLoop pages.length mfgLen report.mapping).2.2.2 := by
  cases mode with
  | strict =>
    cases hv : report.is_valid with
    | false =>
      exfalso
      have h' : (none : Option (List (Sum Nat Nat))) = some out := by
        rw [← h]
        unfold merge_shipping_and_manufacturing_labels_safe
        rw [hv]
      exact Option.noConfusion h'
    | true =>
      unfold merge_shipping_and_manufacturing_labels_safe
      rw [hv]
  | flexible =>
    cases hv : report.is_valid with
    | false =>
      unfold merge_shipping_and_manufacturing_labels_safe
      rw [hv]
    | true =>
      unfold merge_shipping_and_manufacturing_labels_safe
      rw [hv]

/-! ### Fixed points of the `clean_text` passes. -/

/-- Does the pattern recognised by `f` match at any position of `cs`? -/
def hasMatch (f : List Char → Option Nat) : List Char → Bool
  | [] => false
  | c :: cs => (f (c :: cs)).isSome || hasMatch f cs

/-- Is there a run of two or more consecutive whitespace characters? -/
def hasSpaceRun : List Char → Bool
  | c :: d :: rest => (isPySpace c && isPySpace d) || hasSpaceRun (d :: rest)
  | _ => false

theorem subPatternAux_no_match {f : List Char → Option Nat} :
    ∀ {cs : List Char}, hasMatch f cs = false → subPatternAux f cs.length cs = cs := by
  intro cs
  induction cs with
  | nil => intro _; rfl
  | cons c rest ih =>
    intro h
    have h' : ((f (c :: rest)).isSome || hasMatch f rest) = false := h
    rw [Bool.or_eq_false_iff] at h'
    obtain ⟨h1, h2⟩ := h'
    have hf : f (c :: rest) = none := by
      cases hfc : f (c :: rest)
      · rfl
      · rw [hfc] at h1; simp at h1
    show subPatternAux f (rest.length + 1) (c :: rest) = c :: rest
    unfold subPatternAux
    rw [hf, ih h2]

theorem subPattern_no_match {f : List Char → Option Nat} {cs : List Char}
    (h : hasMatch f cs = false) : subPattern f cs = cs :=
  subPatternAux_no_match h

theorem subSpacesAux_no_run : ∀ {cs : List Char},
    hasSpaceRun cs = false → subSpacesAux cs.length cs = cs := by
  intro cs
  induction cs with
  | nil => intro _; rfl
  | cons c rest ih =>
    intro h
    cases rest with
    | nil =>
      show subSpacesAux 1 [c] = [c]
      unfold subSpacesAux
      simp [subSpacesAux]
    | cons d rest' =>
      have h' : ((isPySpace c && isPySpace d) || hasSpaceRun (d :: rest')) = false := h
      rw [Bool.or_eq_false_iff] at h'
      obtain ⟨h1, h2⟩ := h'
      show subSpacesAux ((d :: rest').length + 1) (c :: d :: rest') = c :: d :: rest'
      unfold subSpacesAux
      have hcond : (isPySpace c &&
          (match d :: rest' with | e :: _ => isPySpace e | [] => false)) = false := h1
      rw [hcond, ih h2]
      simp

theorem subSpaces_no_run {cs : List Char} (h : hasSpaceRun cs = false) :
    subSpaces cs = cs :=
  subSpacesAux_no_run h

theorem stripChars_eq_self {cs : List Char}
    (h1 : cs.dropWhile isPySpace = cs)
    (h2 : cs.reverse.dropWhile isPySpace = cs.reverse) :
    stripChars cs = cs := by
  unfold stripChars
  rw [h1, h2, List.reverse_reverse]

theorem stringMk_data (s : String) : String.mk s.data = s := by
  cases s
  rfl

theorem clean_text_of_ne_empty {s : String} (h : s ≠ "") :
    clean_text s = String.mk (stripChars (subSpaces (subPattern matchMostPopLen
      (subPattern matchLitsLen (subPattern matchColorLen s.data))))) := by
  unfold clean_text
  rw [if_neg h]

/-! ### Alignment scenario shared by the safe and legacy merges (claim C10). -/

/-- Extraction result in which page `i` carries exactly the `i`-th expected id. -/
def idLabelsFrom (n : Nat) : List String → List (Nat × Option String)
  | [] => []
  | s :: r => (n, some s) :: idLabelsFrom (n + 1) r

/-- The shipping-order map in the aligned scenario. -/
def idPairs (n : Nat) : List String → List (String × Nat)
  | [] => []
  | s :: r => (s, n) :: idPairs (n + 1) r

/-- The validated mapping in the aligned scenario. -/
def alignedMapping (counts : String → Nat) : List String → Nat → Nat → List (String × MappingInfo)
  | [], _, _ => []
  | oid :: rest, j, m =>
    (oid, ⟨j, pageRange m (counts oid), counts oid⟩) ::
      alignedMapping counts rest (j + 1) (m + counts oid)

/-- The common output of both merges in the aligned scenario. -/
def flatOfCounts (mfgLen : Nat) : List Nat → Nat → Nat → List (Sum Nat Nat)
  | [], _, _ => []
  | c :: rest, s, m =>
    Sum.inl s :: (((pageRange m c).filter (fun x => decide (x < mfgLen))).map Sum.inr
      ++ flatOfCounts mfgLen rest (s + 1) (m + c))

theorem idLabelsFrom_length (seen : List String) (n : Nat) :
    (idLabelsFrom n seen).length = seen.length := by
  induction seen generalizing n with
  | nil => rfl
  | cons s r ih => simp [idLabelsFrom, ih]

theorem foldl_idLabels (seen : List String) :
    ∀ (n : Nat) (m : List (String × Nat)), seen.Nodup →
      (∀ s ∈ seen, m.any (fun p => decide (p.1 = s)) = false) →
      (idLabelsFrom n seen).foldl shipMapStep m = m ++ idPairs n seen := by
  induction seen with
  | nil => intro n m _ _; simp [idLabelsFrom, idPairs]
  | cons s r ih =>
    intro n m hnd hfresh
    have hs : m.any (fun p => decide (p.1 = s)) = false := hfresh s (List.mem_cons_self _ _)
    have hstep : shipMapStep m (n, some s) = m ++ [(s, n)] := by
      unfold shipMapStep insertOverwrite
      simp only
      rw [if_neg (by rw [hs]; exact Bool.false_ne_true)]
    show (idLabelsFrom (n + 1) r).foldl shipMapStep (shipMapStep m (n, some s)) = _
    rw [hstep, ih (n + 1) (m ++ [(s, n)]) (List.Nodup.of_cons hnd) ?_]
    · rw [List.append_assoc]
      rfl
    · intro t ht
      rw [List.any_append]
      have h1 : m.any (fun p => decide (p.1 = t)) = false :=
        hfresh t (List.mem_cons_of_mem _ ht)
      have h2 : [(s, n)].any (fun p => decide (p.1 = t)) = false := by
        have hne : s ≠ t := by
          intro hst
          subst hst
          exact (List.nodup_cons.mp hnd).1 ht
        simp [hne]
      rw [h1, h2]
      rfl

theorem idPairs_alookup (seen : List String) :
    ∀ (n i : Nat) (h : i < seen.length), seen.Nodup →
      alookup (idPairs n seen) (seen.get ⟨i, h⟩) = some (n + i) := by
  induction seen with
  | nil => intro n i h; simp at h
  | cons s r ih =>
    intro n i h hnd
    cases i with
    | zero =>
      show alookup ((s, n) :: idPairs (n + 1) r) s = some n
      simp [alookup]
    | succ i' =>
      have hget : (s :: r).get ⟨i' + 1, h⟩ = r.get ⟨i', Nat.lt_of_succ_lt_succ h⟩ := rfl
      rw [hget]
      have hne : s ≠ r.get ⟨i', Nat.lt_of_succ_lt_succ h⟩ := by
        intro hst
        exact (List.nodup_cons.mp hnd).1 (hst ▸ r.get_mem _ _)
      show alookup ((s, n) :: idPairs (n + 1) r) _ = _
      simp only [alookup, if_neg hne]
      rw [ih (n + 1) i' (Nat.lt_of_succ_lt_succ h) (List.Nodup.of_cons hnd)]
      congr 1
      omega

theorem buildMapping_aligned (counts : String → Nat) (sMap : List (String × Nat)) :
    ∀ (seen : List String) (j m : Nat),
      (∀ (i : Nat) (h : i < seen.length), alookup sMap (seen.get ⟨i, h⟩) = some (j + i)) →
      buildMapping counts sMap seen m = alignedMapping counts seen j m := by
  intro seen
  induction seen with
  | nil => intro j m _; rfl
  | cons oid rest ih =>
    intro j m hal
    have h0 : alookup sMap oid = some j := by
      have := hal 0 (Nat.succ_pos _)
      simpa using this
    unfold buildMapping alignedMapping
    rw [h0]
    show (oid, MappingInfo.mk j (pageRange m (counts oid)) (counts oid)) ::
        buildMapping counts sMap rest (m + counts oid) = _
    rw [ih (j + 1) (m + counts oid) ?_]
    intro i h
    have := hal (i + 1) (Nat.succ_lt_succ h)
    have hget : (oid :: rest).get ⟨i + 1, Nat.succ_lt_succ h⟩ = rest.get ⟨i, h⟩ := rfl
    rw [hget] at this
    rw [this]
    congr 1
    omega

theorem flatJoin_aligned (shipLen mfgLen : Nat) (counts : String → Nat) :
    ∀ (seen : List String) (j m : Nat), j + seen.length ≤ shipLen →
      flatJoin shipLen mfgLen (alignedMapping counts seen j m) =
        flatOfCounts mfgLen (seen.map counts) j m := by
  intro seen
  induction seen with
  | nil => intro j m _; rfl
  | cons oid rest ih =>
    intro j m hb
    have hlen : (oid :: rest).length = rest.length + 1 := rfl
    rw [hlen] at hb
    unfold alignedMapping flatJoin
    have hj : ¬ shipLen ≤ j := by omega
    rw [if_neg hj]
    simp only [List.map_cons, flatOfCounts]
    rw [ih (j + 1) (m + counts oid) (by omega)]

theorem legacyS2M_length : ∀ (counts : List Nat) (s m : Nat),
    (legacyS2M counts s m).length = counts.length := by
  intro counts
  induction counts with
  | nil => intro s m; rfl
  | cons c rest ih => intro s m; simp [legacyS2M, ih]

theorem legacyLoop_irrel (shipLen mfgLen : Nat) (p : Nat × List Nat)
    (s2m : List (Nat × List Nat)) :
    ∀ idxs : List Nat, (∀ i ∈ idxs, i ≠ p.1) →
      legacyLoop shipLen mfgLen (p :: s2m) idxs = legacyLoop shipLen mfgLen s2m idxs := by
  intro idxs
  induction idxs with
  | nil => intro _; rfl
  | cons i rest ih =>
    intro h
    have hne : ¬ p.1 = i := fun he => h i (List.mem_cons_self _ _) he.symm
    unfold legacyLoop
    rw [ih (fun t ht => h t (List.mem_cons_of_mem _ ht))]
    have hl : nlookup (p :: s2m) i = nlookup s2m i := by
      show (if p.1 = i then some p.2 else nlookup s2m i) = nlookup s2m i
      rw [if_neg hne]
    rw [hl]

theorem legacyLoop_aligned (shipLen mfgLen : Nat) :
    ∀ (counts : List Nat) (s m : Nat), s + counts.length ≤ shipLen →
      legacyLoop shipLen mfgLen (legacyS2M counts s m) (pageRange s counts.length) =
        flatOfCounts mfgLen counts s m := by
  intro counts
  induction counts with
  | nil => intro s m _; rfl
  | cons c rest ih =>
    intro s m hb
    have hlen : (c :: rest).length = rest.length + 1 := rfl
    rw [hlen] at hb
    show legacyLoop shipLen mfgLen ((s, pageRange m c) :: legacyS2M rest (s + 1) (m + c))
      (s :: pageRange (s + 1) rest.length) = _
    unfold legacyLoop
    have hs : ¬ shipLen ≤ s := by omega
    rw [if_neg hs]
    have hl : nlookup ((s, pageRange m c) :: legacyS2M rest (s + 1) (m + c)) s
        = some (pageRange m c) := by
      unfold nlookup
      rw [if_pos rfl]
    rw [hl]
    rw [legacyLoop_irrel shipLen mfgLen _ _ _ ?hne]
    case hne =>
      intro i hi
      have := mem_pageRange.mp hi
      show i ≠ s
      omega
    rw [ih (s + 1) (m + c) (by omega)]
    simp [flatOfCounts]

theorem idLabelsFrom_filter_isNone (seen : List String) :
    ∀ n : Nat, (idLabelsFrom n seen).filter (fun p => p.2.isNone) = [] := by
  induction seen with
  | nil => intro n; rfl
  | cons s r ih => intro n; simp [idLabelsFrom, List.filter_cons, ih]

/-! ### Reduction lemmas for the mode dispatch of the safe merge. -/

theorem merge_safe_output_flexible (pages : List String) (mfgLen : Nat)
    (report : ValidationReport) :
    (merge_shipping_and_manufacturing_labels_safe (some pages) (some mfgLen)
        report Mode.flexible).output =
      some (mergeLoop pages.length mfgLen report.mapping).1 := by
  unfold merge_shipping_and_manufacturing_labels_safe
  cases hv : report.is_valid <;> rfl

theorem merge_safe_output_proceeds {report : ValidationReport}
    (pages : List String) (mfgLen : Nat) (mode : Mode)
    (hv : report.is_valid = true) :
    (merge_shipping_and_manufacturing_labels_safe (some pages) (some mfgLen)
        report mode).output =
      some (mergeLoop pages.length mfgLen report.mapping).1 := by
  unfold merge_shipping_and_manufacturing_labels_safe
  rw [hv]
  cases mode <;> rfl

theorem merge_safe_none_shipping (mfgLen : Nat) (report : ValidationReport) (mode : Mode) :
    (merge_shipping_and_manufacturing_labels_safe none (some mfgLen) report mode).output = none ∧
    (merge_shipping_and_manufacturing_labels_safe none (some mfgLen)
        report mode).details.success = false := by
  unfold merge_shipping_and_manufacturing_labels_safe
  cases mode <;> cases hv : report.is_valid <;> exact ⟨rfl, rfl⟩

theorem merge_safe_none_manufacturing (pages : List String) (report : ValidationReport)
    (mode : Mode) :
    (merge_shipping_and_manufacturing_labels_safe (some pages) none report mode).output = none ∧
    (merge_shipping_and_manufacturing_labels_safe (some pages) none
        report mode).details.success = false := by
  unfold merge_shipping_and_manufacturing_labels_safe
  cases mode <;> cases hv : report.is_valid <;> exact ⟨rfl, rfl⟩

theorem flatJoin_inr_lt {shipLen mfgLen : Nat} {entries : List (String × MappingInfo)}
    {m : Nat} (hm : Sum.inr m ∈ flatJoin shipLen mfgLen entries) : m < mfgLen := by
  have hmem : m ∈ mfgIndices (flatJoin shipLen mfgLen entries) :=
    List.mem_filterMap.mpr ⟨Sum.inr m, hm, rfl⟩
  rw [mfgIndices_flatJoin] at hmem
  rcases List.mem_flatten.mp hmem with ⟨l, hl, hml⟩
  rcases List.mem_map.mp hl with ⟨e, _, rfl⟩
  have := (List.mem_filter.mp hml).2
  simpa using this

/-! ### Claims C5, C6, C7. -/

/-- C5, counterexample: with a readable two-page shipping PDF whose second page
yields no order id (a per-page extraction failure), the STRICT-mode merge
returns a hard failure and no output — so a per-page extraction failure does
abort the whole merge, refuting "only a whole-document read failure is
surfaced to the caller as a hard failure". -/
theorem claim_C5_counterexample :
    (extract_order_ids_from_shipping_pdf
        (some ["Order ID: 111-1111111-1111111", ""])).length = 2 ∧
    (merge_shipping_and_manufacturing_labels_safe
        (some ["Order ID: 111-1111111-1111111", ""]) (some 1)
        (validate_label_mapping (some ["Order ID: 111-1111111-1111111", ""])
          ["111-1111111-1111111"]) Mode.strict).output = none ∧
    (merge_shipping_and_manufacturing_labels_safe
        (some ["Order ID: 111-1111111-1111111", ""]) (some 1)
        (validate_label_mapping (some ["Order ID: 111-1111111-1111111", ""])
          ["111-1111111-1111111"]) Mode.strict).details.success = false := by
  refine ⟨by decide, by decide, by decide⟩

/-- C5 (amended): in FLEXIBLE mode the merge of readable documents always
produces an output (per-page extraction failures are downgraded to unmatched
pages and every page of the document is processed), while an unreadable
shipping or manufacturing PDF yields a hard failure with no partial output.
In STRICT mode, by contrast, per-page failures block the merge through
validation (see the counterexample). -/
theorem claim_C5_amended (pages : List String) (mfgLen : Nat) (rows : List String)
    (report : ValidationReport) (mode : Mode) :
    ((merge_shipping_and_manufacturing_labels_safe (some pages) (some mfgLen)
        (validate_label_mapping (some pages) rows) Mode.flexible).output).isSome = true ∧
    (extract_order_ids_from_shipping_pdf (some pages)).length = pages.length ∧
    (merge_shipping_and_manufacturing_labels_safe none (some mfgLen) report mode).output
      = none ∧
    (merge_shipping_and_manufacturing_labels_safe none (some mfgLen)
        report mode).details.success = false ∧
    (merge_shipping_and_manufacturing_labels_safe (some pages) none report mode).output
      = none ∧
    (merge_shipping_and_manufacturing_labels_safe (some pages) none
        report mode).details.success = false := by
  refine ⟨?_, ?_, (merge_safe_none_shipping mfgLen report mode).1,
    (merge_safe_none_shipping mfgLen report mode).2,
    (merge_safe_none_manufacturing pages report mode).1,
    (merge_safe_none_manufacturing pages report mode).2⟩
  · rw [merge_safe_output_flexible]
    rfl
  · exact extractLabels_length pages 0

/-- C6, counterexample: a page whose extracted text is empty yields no
identifier at all — there is no OCR fallback (or any second strategy), so the
page fails silently instead of being "resolved via the OCR path". -/
theorem claim_C6_counterexample :
    extract_order_ids_from_shipping_pdf (some ["", "id 222-2222222-2222222"]) =
      [(0, none), (1, some "222-2222222-2222222")] := by decide

/-- C6 (amended): the scanner applies a single identification strategy to each
page independently — a regex search of the page's extracted text for the
order-id pattern, keeping the first match — and a page with empty extracted
text always yields no identifier; there is no anchor/full-scan/OCR cascade. -/
theorem claim_C6_amended (pages : List String) :
    extract_order_ids_from_shipping_pdf (some pages) = (pages.map findOrderId).enum ∧
    findOrderId "" = none := by
  constructor
  · show extractLabels 0 pages = _
    rw [extractLabels_eq_enumFrom]
    rfl
  · rfl

/-- C7, counterexample: `clean_text` is not idempotent — removing the inner
color code of "(#ff(#fff)f)" produces the fresh color code "(#fff)", which a
second application removes. -/
theorem claim_C7_counterexample :
    clean_text (clean_text "(#ff(#fff)f)") ≠ clean_text "(#ff(#fff)f)" := by decide

/-- C7 (amended): `clean_text` is idempotent exactly on inputs whose cleaned
form is a fixed point of every pass: if the cleaned text contains no further
occurrence of the color-code, banned-literal or "(Most popular)" patterns, no
whitespace run, and no leading or trailing whitespace, then cleaning it again
changes nothing.  (Full idempotence fails because deleting one match can
create a new one, as in the counterexample.) -/
theorem claim_C7_amended (x : String)
    (h1 : hasMatch matchColorLen (clean_text x).data = false)
    (h2 : hasMatch matchLitsLen (clean_text x).data = false)
    (h3 : hasMatch matchMostPopLen (clean_text x).data = false)
    (h4 : hasSpaceRun (clean_text x).data = false)
    (h5 : (clean_text x).data.dropWhile isPySpace = (clean_text x).data)
    (h6 : (clean_text x).data.reverse.dropWhile isPySpace = (clean_text x).data.reverse) :
    clean_text (clean_text x) = clean_text x := by
  by_cases hempty : clean_text x = ""
  · rw [hempty]
    decide
  · rw [clean_text_of_ne_empty hempty, subPattern_no_match h1, subPattern_no_match h2,
      subPattern_no_match h3, subSpaces_no_run h4, stripChars_eq_self h5 h6,
      stringMk_data]

/-- C7, witness: the amended idempotence theorem applied to a concrete input
whose cleaned form "a b" satisfies every fixed-point condition. -/
theorem claim_C7_witness :
    hasMatch matchColorLen (clean_text "a  (#fff) b").data = false ∧
    hasSpaceRun (clean_text "a  (#fff) b").data = false ∧
    clean_text (clean_text "a  (#fff) b") = clean_text "a  (#fff) b" :=
  ⟨by decide, by decide,
    claim_C7_amended "a  (#fff) b" (by decide) (by decide) (by decide) (by decide)
      (by decide) (by decide)⟩

/-! ### Claims C1–C4 (safe-merge output structure). -/

theorem extract_some (pages : List String) :
    extract_order_ids_from_shipping_pdf (some pages) = extractLabels 0 pages := rfl

/-- The manufacturing pages the safe merge emits over a validated mapping are
pairwise distinct (the mapping's ranges are disjoint, and the merge keeps a
sublist of their concatenation). -/
theorem validate_mfgIndices_nodup (pages rows : List String) (mfgLen shipLen : Nat) :
    (mfgIndices (flatJoin shipLen mfgLen
      (validate_label_mapping (some pages) rows).mapping)).Nodup := by
  have hsub := mfgIndices_flatJoin_sublist shipLen mfgLen
    (validate_label_mapping (some pages) rows).mapping
  have hsorted := (buildMapping_flat_sorted (orderItemCount rows)
    (shippingOrderMap (extract_order_ids_from_shipping_pdf (some pages)))
    (seenOrders rows) 0).1
  exact (List.Pairwise.sublist hsub hsorted).imp fun hab => Nat.ne_of_lt hab

/-- C1, counterexample: order "333-3333333-3333333" has one manufacturing page
(page 0) but no shipping label; the FLEXIBLE merge succeeds with an empty
output, so that manufacturing page appears zero times — it is dropped, not
appended as an orphan. -/
theorem claim_C1_counterexample :
    (((merge_shipping_and_manufacturing_labels_safe (some []) (some 1)
        (validate_label_mapping (some []) ["333-3333333-3333333"])
        Mode.flexible).output).isSome = true) ∧
    ¬ ((mfgIndices (((merge_shipping_and_manufacturing_labels_safe (some []) (some 1)
        (validate_label_mapping (some []) ["333-3333333-3333333"])
        Mode.flexible).output).getD [])).count 0 = 1) := by
  refine ⟨by decide, by decide⟩

/-- C1 (amended): whenever the safe merge produces an output, the
manufacturing pages it contains are exactly the in-range manufacturing pages
of the mapped orders whose shipping page is in range, each exactly once;
manufacturing pages of orders without a shipping label (and out-of-range
pages) are omitted — no orphan section is appended. -/
theorem claim_C1_amended (pages rows : List String) (mfgLen : Nat) (mode : Mode)
    (out : List (Sum Nat Nat))
    (h : (merge_shipping_and_manufacturing_labels_safe (some pages) (some mfgLen)
        (validate_label_mapping (some pages) rows) mode).output = some out) :
    (mfgIndices out).Nodup ∧
    mfgIndices out =
      (((validate_label_mapping (some pages) rows).mapping.filter
          (fun e => decide (e.2.shipping_page < pages.length))).map
        (fun e => e.2.mfg_pages.filter (fun m => decide (m < mfgLen)))).flatten := by
  have hout := merge_safe_output_eq h
  subst hout
  exact ⟨validate_mfgIndices_nodup pages rows mfgLen pages.length,
    mfgIndices_flatJoin pages.length mfgLen _⟩

/-- C1, witness: one matched order; the merge emits its shipping page followed
by its only manufacturing page. -/
theorem claim_C1_witness :
    ((merge_shipping_and_manufacturing_labels_safe
        (some ["Order ID: 111-1111111-1111111"]) (some 1)
        (validate_label_mapping (some ["Order ID: 111-1111111-1111111"])
          ["111-1111111-1111111"]) Mode.flexible).output
      = some [Sum.inl 0, Sum.inr 0]) ∧
    (mfgIndices [Sum.inl 0, Sum.inr 0]).Nodup :=
  ⟨by decide,
    (claim_C1_amended ["Order ID: 111-1111111-1111111"] ["111-1111111-1111111"] 1
      Mode.flexible [Sum.inl 0, Sum.inr 0] (by decide)).1⟩

/-- C2, counterexample: table order is 111… then 222…, but the shipping PDF
has 222… on page 0, 111… on page 1 and an unreadable page 2.  The merge emits
shipping pages in table order [1, 0] and drops page 2 entirely, so the
shipping pages neither all appear nor appear in original PDF page order
(which would force the index sequence [0, 1, 2]). -/
theorem claim_C2_counterexample :
    (((merge_shipping_and_manufacturing_labels_safe
        (some ["Order ID: 222-2222222-2222222", "Order ID: 111-1111111-1111111", ""])
        (some 2)
        (validate_label_mapping
          (some ["Order ID: 222-2222222-2222222", "Order ID: 111-1111111-1111111", ""])
          ["111-1111111-1111111", "222-2222222-2222222"])
        Mode.flexible).output).isSome = true) ∧
    ¬ (shipIndices (((merge_shipping_and_manufacturing_labels_safe
        (some ["Order ID: 222-2222222-2222222", "Order ID: 111-1111111-1111111", ""])
        (some 2)
        (validate_label_mapping
          (some ["Order ID: 222-2222222-2222222", "Order ID: 111-1111111-1111111", ""])
          ["111-1111111-1111111", "222-2222222-2222222"])
        Mode.flexible).output).getD []) = [0, 1, 2]) := by
  refine ⟨by decide, by decide⟩

/-- C2 (amended): whenever the safe merge produces an output, the shipping
pages it contains are exactly the pages of the validated mapping (one per
matched order, each exactly once), emitted in the order the orders first
appear in the order table — not in shipping-PDF page order; unmatched
shipping pages are dropped. -/
theorem claim_C2_amended (pages rows : List String) (mfgLen : Nat) (mode : Mode)
    (out : List (Sum Nat Nat))
    (h : (merge_shipping_and_manufacturing_labels_safe (some pages) (some mfgLen)
        (validate_label_mapping (some pages) rows) mode).output = some out) :
    shipIndices out =
      ((validate_label_mapping (some pages) rows).mapping.filter
          (fun e => decide (e.2.shipping_page < pages.length))).map
        (fun e => e.2.shipping_page) ∧
    (shipIndices out).Nodup := by
  have hout := merge_safe_output_eq h
  subst hout
  have heq := shipIndices_flatJoin pages.length mfgLen
    (validate_label_mapping (some pages) rows).mapping
  refine ⟨heq, ?_⟩
  rw [heq]
  have hkeys : ((validate_label_mapping (some pages) rows).mapping.map
      (fun e => e.1)).Nodup :=
    buildMapping_keys_nodup rows (orderItemCount rows)
      (shippingOrderMap (extract_order_ids_from_shipping_pdf (some pages))) 0
  have hpw : (validate_label_mapping (some pages) rows).mapping.Pairwise
      (fun a b => a.1 ≠ b.1) := List.pairwise_map.mp hkeys
  have hpwf := List.Pairwise.filter
    (fun e => decide (e.2.shipping_page < pages.length)) hpw
  have hpw2 : ((validate_label_mapping (some pages) rows).mapping.filter
      (fun e => decide (e.2.shipping_page < pages.length))).Pairwise
      (fun a b => a.2.shipping_page ≠ b.2.shipping_page) := by
    refine List.Pairwise.imp_of_mem ?_ hpwf
    intro a b ha hb hne hsp
    have ha' := List.mem_of_mem_filter ha
    have hb' := List.mem_of_mem_filter hb
    obtain ⟨ka, ia⟩ := a
    obtain ⟨kb, ib⟩ := b
    have hla := (buildMapping_mem ha').1
    have hlb := (buildMapping_mem hb').1
    simp only at hsp hne
    rw [hsp] at hla
    have h1 := mem_shippingOrderMap (alookup_mem hla)
    have h2 := mem_shippingOrderMap (alookup_mem hlb)
    have hfun : some ka = some kb := extractLabels_functional h1 h2
    injection hfun with hfun
    exact hne hfun
  exact List.pairwise_map.mpr hpw2

/-- C2, witness: two matched orders in table order; the shipping pages [0, 1]
are emitted exactly once each. -/
theorem claim_C2_witness :
    ((merge_shipping_and_manufacturing_labels_safe
        (some ["Order ID: 111-1111111-1111111", "Order ID: 222-2222222-2222222"])
        (some 2)
        (validate_label_mapping
          (some ["Order ID: 111-1111111-1111111", "Order ID: 222-2222222-2222222"])
          ["111-1111111-1111111", "222-2222222-2222222"]) Mode.flexible).output
      = some [Sum.inl 0, Sum.inr 0, Sum.inl 1, Sum.inr 1]) ∧
    (shipIndices [Sum.inl 0, Sum.inr 0, Sum.inl 1, Sum.inr 1]).Nodup :=
  ⟨by decide,
    (claim_C2_amended
      ["Order ID: 111-1111111-1111111", "Order ID: 222-2222222-2222222"]
      ["111-1111111-1111111", "222-2222222-2222222"] 2 Mode.flexible
      [Sum.inl 0, Sum.inr 0, Sum.inl 1, Sum.inr 1] (by decide)).2⟩

/-- C3, counterexample: shipping pages 0 and 1 both carry order
"555-5555555-5555555".  The merged output contains shipping page 1 (the last
claimer) and not page 0, so it is the last — not the first — shipping page
that wins the key. -/
theorem claim_C3_counterexample :
    ((merge_shipping_and_manufacturing_labels_safe
        (some ["Order ID: 555-5555555-5555555", "dup 555-5555555-5555555"]) (some 1)
        (validate_label_mapping
          (some ["Order ID: 555-5555555-5555555", "dup 555-5555555-5555555"])
          ["555-5555555-5555555"]) Mode.flexible).output
      = some [Sum.inl 1, Sum.inr 0]) ∧
    Sum.inl 0 ∉ ([Sum.inl 1, Sum.inr 0] : List (Sum Nat Nat)) := by
  refine ⟨by decide, by simp⟩

/-- C3 (amended): each buyer/order key is claimed by at most one shipping page
(the mapping has pairwise-distinct keys and the key's manufacturing pages
occur at most once in the merged output), but when several shipping pages
carry the same key it is the LAST such page — the one the overwriting
`shipping_order_map[order_id] = page_idx` assignment kept — that wins, not
the first. -/
theorem claim_C3_amended (pages rows : List String) (mfgLen : Nat) (mode : Mode)
    (out : List (Sum Nat Nat))
    (h : (merge_shipping_and_manufacturing_labels_safe (some pages) (some mfgLen)
        (validate_label_mapping (some pages) rows) mode).output = some out) :
    ((validate_label_mapping (some pages) rows).mapping.map (fun e => e.1)).Nodup ∧
    (mfgIndices out).Nodup ∧
    (∀ (k : String) (sp : Nat),
      alookup (shippingOrderMap (extract_order_ids_from_shipping_pdf (some pages))) k
        = some sp →
      ∀ i, (i, some k) ∈ extract_order_ids_from_shipping_pdf (some pages) → i ≤ sp) := by
  have hout := merge_safe_output_eq h
  subst hout
  refine ⟨buildMapping_keys_nodup rows (orderItemCount rows)
      (shippingOrderMap (extract_order_ids_from_shipping_pdf (some pages))) 0,
    validate_mfgIndices_nodup pages rows mfgLen pages.length, ?_⟩
  intro k sp hl i hi
  rw [shippingOrderMap_alookup] at hl
  rw [extract_some] at hl hi
  exact lastIdFor_extract_ge hl i hi

/-- C3, witness: a single order with a single shipping page; the mapping keys
are trivially distinct and its manufacturing page appears once. -/
theorem claim_C3_witness :
    ((merge_shipping_and_manufacturing_labels_safe
        (some ["Order ID: 444-4444444-4444444"]) (some 1)
        (validate_label_mapping (some ["Order ID: 444-4444444-4444444"])
          ["444-4444444-4444444"]) Mode.flexible).output
      = some [Sum.inl 0, Sum.inr 0]) ∧
    ((validate_label_mapping (some ["Order ID: 444-4444444-4444444"])
        ["444-4444444-4444444"]).mapping.map (fun e => e.1)).Nodup :=
  ⟨by decide,
    (claim_C3_amended ["Order ID: 444-4444444-4444444"] ["444-4444444-4444444"] 1
      Mode.flexible [Sum.inl 0, Sum.inr 0] (by decide)).1⟩

theorem flatJoin_eq_groups (shipLen mfgLen : Nat) :
    ∀ entries : List (String × MappingInfo),
      flatJoin shipLen mfgLen entries =
        ((entries.filter (fun e => decide (e.2.shipping_page < shipLen))).map
          (fun e => Sum.inl e.2.shipping_page ::
            (e.2.mfg_pages.filter (fun m => decide (m < mfgLen))).map Sum.inr)).flatten := by
  intro entries
  induction entries with
  | nil => rfl
  | cons e rest ih =>
    obtain ⟨oid, info⟩ := e
    unfold flatJoin
    by_cases hsp : shipLen ≤ info.shipping_page
    · have hd : decide (info.shipping_page < shipLen) = false := by
        simp only [decide_eq_false_iff_not]
        omega
      rw [if_pos hsp, ih, List.filter_cons]
      simp [hd]
    · have hd : decide (info.shipping_page < shipLen) = true := by
        simp only [decide_eq_true_eq]
        omega
      rw [if_neg hsp, ih, List.filter_cons]
      simp [hd]

/-- C4, counterexample: table order 444… then 666…, shipping PDF with 666… on
page 0 and 444… on page 1.  The first emitted group belongs to shipping page 1
and the group for page 0 comes after it: groups are emitted in table order,
not while processing shipping pages in their original PDF page order. -/
theorem claim_C4_counterexample :
    (((merge_shipping_and_manufacturing_labels_safe
        (some ["Order ID: 666-6666666-6666666", "Order ID: 444-4444444-4444444"])
        (some 2)
        (validate_label_mapping
          (some ["Order ID: 666-6666666-6666666", "Order ID: 444-4444444-4444444"])
          ["444-4444444-4444444", "666-6666666-6666666"])
        Mode.flexible).output).getD []
      = [Sum.inl 1, Sum.inr 0, Sum.inl 0, Sum.inr 1]) ∧
    ¬ (shipIndices [Sum.inl 1, Sum.inr 0, Sum.inl 0, Sum.inr 1]).Pairwise (· ≤ ·) := by
  refine ⟨by decide, by decide⟩

/-- C4 (amended): whenever the safe merge produces an output, it is the
concatenation of per-order groups — each in-range shipping page immediately
followed by its order's in-range manufacturing pages in increasing (original)
order — and the groups follow the mapping order, which is the order the
orders first appear in the order table (a subsequence of `seen_orders`), not
the shipping-PDF page order. -/
theorem claim_C4_amended (pages rows : List String) (mfgLen : Nat) (mode : Mode)
    (out : List (Sum Nat Nat))
    (h : (merge_shipping_and_manufacturing_labels_safe (some pages) (some mfgLen)
        (validate_label_mapping (some pages) rows) mode).output = some out) :
    out = (((validate_label_mapping (some pages) rows).mapping.filter
        (fun e => decide (e.2.shipping_page < pages.length))).map
        (fun e => Sum.inl e.2.shipping_page ::
          (e.2.mfg_pages.filter (fun m => decide (m < mfgLen))).map Sum.inr)).flatten ∧
    (∀ (k : String) (info : MappingInfo),
      (k, info) ∈ (validate_label_mapping (some pages) rows).mapping →
      info.mfg_pages.Pairwise (· < ·)) ∧
    ((validate_label_mapping (some pages) rows).mapping.map
        (fun e => e.1)).Sublist (seenOrders rows) := by
  have hout := merge_safe_output_eq h
  subst hout
  refine ⟨flatJoin_eq_groups pages.length mfgLen _, ?_, ?_⟩
  · intro k info hmem
    rcases (buildMapping_mem hmem).2 with ⟨m, hmf, _⟩
    rw [hmf]
    exact pageRange_pairwise _ _
  · exact buildMapping_keys_sublist (orderItemCount rows)
      (shippingOrderMap (extract_order_ids_from_shipping_pdf (some pages)))
      (seenOrders rows) 0

/-- C4, witness: two matched orders aligned with the shipping PDF; the output
is the two groups in table order. -/
theorem claim_C4_witness :
    ((merge_shipping_and_manufacturing_labels_safe
        (some ["Order ID: 444-4444444-4444444", "Order ID: 666-6666666-6666666"])
        (some 2)
        (validate_label_mapping
          (some ["Order ID: 444-4444444-4444444", "Order ID: 666-6666666-6666666"])
          ["444-4444444-4444444", "666-6666666-6666666"]) Mode.flexible).output
      = some [Sum.inl 0, Sum.inr 0, Sum.inl 1, Sum.inr 1]) ∧
    ((validate_label_mapping
        (some ["Order ID: 444-4444444-4444444", "Order ID: 666-6666666-6666666"])
        ["444-4444444-4444444", "666-6666666-6666666"]).mapping.map
        (fun e => e.1)).Sublist
      (seenOrders ["444-4444444-4444444", "666-6666666-6666666"]) :=
  ⟨by decide,
    (claim_C4_amended
      ["Order ID: 444-4444444-4444444", "Order ID: 666-6666666-6666666"]
      ["444-4444444-4444444", "666-6666666-6666666"] 2 Mode.flexible
      [Sum.inl 0, Sum.inr 0, Sum.inl 1, Sum.inr 1] (by decide)).2.2⟩

/-! ### Claims C8, C9, C10. -/

/-- C8 (confirmed): a structural mismatch between manufacturing page count and
row count is non-fatal.  Whenever the merge is allowed to proceed (FLEXIBLE
mode, or a valid report), it returns an output; no out-of-range manufacturing
page is ever emitted (no out-of-bounds access); and every mapped order with an
in-range shipping page is still processed — its shipping page is emitted and
each of its out-of-range manufacturing page indices is only logged as a
warning while processing continues. -/
theorem claim_C8 (pages rows : List String) (mfgLen : Nat) (mode : Mode)
    (h : mode = Mode.flexible ∨
      (validate_label_mapping (some pages) rows).is_valid = true) :
    ∃ out, (merge_shipping_and_manufacturing_labels_safe (some pages) (some mfgLen)
        (validate_label_mapping (some pages) rows) mode).output = some out ∧
      (∀ m, Sum.inr m ∈ out → m < mfgLen) ∧
      (∀ (k : String) (info : MappingInfo),
        (k, info) ∈ (validate_label_mapping (some pages) rows).mapping →
        info.shipping_page < pages.length →
        Sum.inl info.shipping_page ∈ out ∧
        ∀ mi ∈ info.mfg_pages, mfgLen ≤ mi →
          LogEntry.mfgOutOfRange k mi ∈
            (merge_shipping_and_manufacturing_labels_safe (some pages) (some mfgLen)
              (validate_label_mapping (some pages) rows) mode).details.log) := by
  have hsome : (merge_shipping_and_manufacturing_labels_safe (some pages) (some mfgLen)
      (validate_label_mapping (some pages) rows) mode).output =
      some (mergeLoop pages.length mfgLen
        (validate_label_mapping (some pages) rows).mapping).1 := by
    rcases h with rfl | hv
    · exact merge_safe_output_flexible pages mfgLen _
    · exact merge_safe_output_proceeds pages mfgLen mode hv
  refine ⟨_, hsome, ?_, ?_⟩
  · intro m hm
    rw [mergeLoop_fst] at hm
    exact flatJoin_inr_lt hm
  · intro k info hmem hsp
    constructor
    · rw [mergeLoop_fst]
      exact flatJoin_mem_inl pages.length mfgLen _ k info hmem hsp
    · intro mi hmi hge
      rw [merge_safe_log_eq hsome]
      exact mergeLoop_log pages.length mfgLen _ k info hmem hsp mi hmi hge

/-- C8, witness: two rows for order 777… but only one manufacturing page; the
computed index 1 is out of range, yet the merge proceeds, emits the in-range
pages, and logs the mismatch. -/
theorem claim_C8_witness :
    (Mode.flexible = Mode.flexible ∨
      (validate_label_mapping (some ["Order ID: 777-7777777-7777777"])
        ["777-7777777-7777777", "777-7777777-7777777"]).is_valid = true) ∧
    (∃ out, (merge_shipping_and_manufacturing_labels_safe
        (some ["Order ID: 777-7777777-7777777"]) (some 1)
        (validate_label_mapping (some ["Order ID: 777-7777777-7777777"])
          ["777-7777777-7777777", "777-7777777-7777777"]) Mode.flexible).output
        = some out ∧
      (∀ m, Sum.inr m ∈ out → m < 1) ∧
      (∀ (k : String) (info : MappingInfo),
        (k, info) ∈ (validate_label_mapping (some ["Order ID: 777-7777777-7777777"])
          ["777-7777777-7777777", "777-7777777-7777777"]).mapping →
        info.shipping_page < (["Order ID: 777-7777777-7777777"] : List String).length →
        Sum.inl info.shipping_page ∈ out ∧
        ∀ mi ∈ info.mfg_pages, 1 ≤ mi →
          LogEntry.mfgOutOfRange k mi ∈
            (merge_shipping_and_manufacturing_labels_safe
              (some ["Order ID: 777-7777777-7777777"]) (some 1)
              (validate_label_mapping (some ["Order ID: 777-7777777-7777777"])
                ["777-7777777-7777777", "777-7777777-7777777"])
              Mode.flexible).details.log)) :=
  ⟨Or.inl rfl,
    claim_C8 ["Order ID: 777-7777777-7777777"]
      ["777-7777777-7777777", "777-7777777-7777777"] 1 Mode.flexible (Or.inl rfl)⟩

/-- C9 (confirmed): every mapping entry's shipping page is a page that carries
the entry's order id, it is the greatest (hence last) such page index — the
`shipping_order_map[order_id] = page_idx` assignment overwrites earlier
duplicates — and any shipping page in the merged output carrying that id is
that very page, so earlier duplicate pages are absent from the output. -/
theorem claim_C9 (pages rows : List String) (mfgLen : Nat) (mode : Mode)
    (k : String) (info : MappingInfo)
    (hmem : (k, info) ∈ (validate_label_mapping (some pages) rows).mapping) :
    (info.shipping_page, some k) ∈ extract_order_ids_from_shipping_pdf (some pages) ∧
    (∀ i, (i, some k) ∈ extract_order_ids_from_shipping_pdf (some pages) →
      i ≤ info.shipping_page) ∧
    (∀ (out : List (Sum Nat Nat)) (i : Nat),
      (merge_shipping_and_manufacturing_labels_safe (some pages) (some mfgLen)
          (validate_label_mapping (some pages) rows) mode).output = some out →
      Sum.inl i ∈ out →
      (i, some k) ∈ extract_order_ids_from_shipping_pdf (some pages) →
      i = info.shipping_page) := by
  have hl : alookup (shippingOrderMap (extract_order_ids_from_shipping_pdf (some pages))) k
      = some info.shipping_page := (buildMapping_mem hmem).1
  have hself : (info.shipping_page, some k) ∈
      extract_order_ids_from_shipping_pdf (some pages) :=
    mem_shippingOrderMap (alookup_mem hl)
  refine ⟨hself, ?_, ?_⟩
  · intro i hi
    have hl' := hl
    rw [shippingOrderMap_alookup] at hl'
    rw [extract_some] at hl' hi
    exact lastIdFor_extract_ge hl' i hi
  · intro out i hout hinl hik
    have hout' := merge_safe_output_eq hout
    subst hout'
    have hip : i ∈ shipIndices (flatJoin pages.length mfgLen
        (validate_label_mapping (some pages) rows).mapping) :=
      List.mem_filterMap.mpr ⟨Sum.inl i, hinl, rfl⟩
    rw [shipIndices_flatJoin] at hip
    rcases List.mem_map.mp hip with ⟨e, he, hei⟩
    have he' := List.mem_of_mem_filter he
    obtain ⟨ke, ie⟩ := e
    simp only at hei
    have hle : alookup (shippingOrderMap
        (extract_order_ids_from_shipping_pdf (some pages))) ke
        = some ie.shipping_page := (buildMapping_mem he').1
    have hme : (ie.shipping_page, some ke) ∈
        extract_order_ids_from_shipping_pdf (some pages) :=
      mem_shippingOrderMap (alookup_mem hle)
    rw [hei] at hme hle
    have hfun : some ke = some k := by
      rw [extract_some] at hme hik
      exact extractLabels_functional hme hik
    injection hfun with hfun
    rw [hfun, hl] at hle
    injection hle with hle
    exact hle.symm

/-- C9, witness: shipping pages 0 and 1 both carry order 888…; validation maps
the order to page 1 (the greatest index), which indeed carries the id. -/
theorem claim_C9_witness :
    ((("888-8888888-8888888" : String), (⟨1, [0], 1⟩ : MappingInfo)) ∈
      (validate_label_mapping
        (some ["Order ID: 888-8888888-8888888", "copy 888-8888888-8888888"])
        ["888-8888888-8888888"]).mapping) ∧
    ((1 : Nat), some "888-8888888-8888888") ∈
      extract_order_ids_from_shipping_pdf
        (some ["Order ID: 888-8888888-8888888", "copy 888-8888888-8888888"]) :=
  ⟨by decide,
    (claim_C9 ["Order ID: 888-8888888-8888888", "copy 888-8888888-8888888"]
      ["888-8888888-8888888"] 1 Mode.flexible "888-8888888-8888888" ⟨1, [0], 1⟩
      (by decide)).1⟩

/-- C10 (confirmed): when page `i` of the shipping PDF carries exactly the
`i`-th distinct order id of the table (no extra, missing or unreadable pages),
validation succeeds in any mode and the safe merge and the legacy merge
produce exactly the same sequence of output pages. -/
theorem claim_C10 (rows pages : List String) (mfgLen : Nat) (mode : Mode)
    (h : extractLabels 0 pages = idLabelsFrom 0 (seenOrders rows)) :
    (merge_shipping_and_manufacturing_labels_safe (some pages) (some mfgLen)
        (validate_label_mapping (some pages) rows) mode).output
      = (merge_shipping_and_manufacturing_labels (some pages) (some mfgLen) rows).1 ∧
    ((merge_shipping_and_manufacturing_labels_safe (some pages) (some mfgLen)
        (validate_label_mapping (some pages) rows) mode).output).isSome = true := by
  have hnd := seenOrders_nodup rows
  have hlen : pages.length = (seenOrders rows).length := by
    have h1 := extractLabels_length pages 0
    rw [h, idLabelsFrom_length] at h1
    omega
  have hsmap : shippingOrderMap (extractLabels 0 pages) = idPairs 0 (seenOrders rows) := by
    rw [h]
    show (idLabelsFrom 0 (seenOrders rows)).foldl shipMapStep [] = _
    rw [foldl_idLabels (seenOrders rows) 0 [] hnd (fun s _ => rfl)]
    rfl
  have hlook : ∀ (i : Nat) (hi : i < (seenOrders rows).length),
      alookup (shippingOrderMap (extract_order_ids_from_shipping_pdf (some pages)))
        ((seenOrders rows).get ⟨i, hi⟩) = some i := by
    intro i hi
    rw [extract_some, hsmap, idPairs_alookup (seenOrders rows) 0 i hi hnd]
    congr 1
    omega
  have hvalid : (validate_label_mapping (some pages) rows).is_valid = true := by
    show (((seenOrders rows).filter (fun oid =>
        (alookup (shippingOrderMap (extract_order_ids_from_shipping_pdf (some pages)))
          oid).isNone)).isEmpty &&
      (((extract_order_ids_from_shipping_pdf (some pages)).filter
          (fun p => p.2.isNone)).map (fun p => p.1)).isEmpty) = true
    have hmiss : (seenOrders rows).filter (fun oid =>
        (alookup (shippingOrderMap (extract_order_ids_from_shipping_pdf (some pages)))
          oid).isNone) = [] := by
      rw [List.filter_eq_nil_iff]
      intro oid hm
      rcases List.mem_iff_get.mp hm with ⟨⟨i, hi⟩, hget⟩
      rw [← hget, hlook i hi]
      simp
    have hunr : (extract_order_ids_from_shipping_pdf (some pages)).filter
        (fun p => p.2.isNone) = [] := by
      rw [extract_some, h]
      exact idLabelsFrom_filter_isNone (seenOrders rows) 0
    rw [hmiss, hunr]
    rfl
  have hmap2 : (validate_label_mapping (some pages) rows).mapping =
      alignedMapping (orderItemCount rows) (seenOrders rows) 0 0 := by
    show buildMapping (orderItemCount rows)
        (shippingOrderMap (extract_order_ids_from_shipping_pdf (some pages)))
        (seenOrders rows) 0 = _
    refine buildMapping_aligned _ _ (seenOrders rows) 0 0 ?_
    intro i hi
    rw [hlook i hi]
    congr 1
    omega
  have hsafe : (merge_shipping_and_manufacturing_labels_safe (some pages) (some mfgLen)
      (validate_label_mapping (some pages) rows) mode).output
      = some (flatOfCounts mfgLen ((seenOrders rows).map (orderItemCount rows)) 0 0) := by
    rw [merge_safe_output_proceeds pages mfgLen mode hvalid, mergeLoop_fst, hmap2,
      flatJoin_aligned pages.length mfgLen (orderItemCount rows) (seenOrders rows) 0 0
        (by omega)]
  have hb : 0 + ((seenOrders rows).map (orderItemCount rows)).length ≤ pages.length := by
    rw [List.length_map]
    omega
  have hleg : (merge_shipping_and_manufacturing_labels (some pages) (some mfgLen) rows).1
      = some (flatOfCounts mfgLen ((seenOrders rows).map (orderItemCount rows)) 0 0) := by
    show some (legacyLoop pages.length mfgLen
        (legacyS2M ((seenOrders rows).map (orderItemCount rows)) 0 0)
        (pageRange 0 (legacyS2M ((seenOrders rows).map (orderItemCount rows)) 0 0).length))
      = _
    rw [legacyS2M_length,
      legacyLoop_aligned pages.length mfgLen ((seenOrders rows).map (orderItemCount rows))
        0 0 hb]
  refine ⟨hsafe.trans hleg.symm, ?_⟩
  rw [hsafe]
  rfl

/-- C10, witness: a two-order table (one order with two rows) aligned with a
two-page shipping PDF; both merges produce the same five-page output. -/
theorem claim_C10_witness :
    ((merge_shipping_and_manufacturing_labels_safe
        (some ["Order ID: 999-9999999-9999999", "Order ID: 123-4567890-1234567"])
        (some 3)
        (validate_label_mapping
          (some ["Order ID: 999-9999999-9999999", "Order ID: 123-4567890-1234567"])
          ["999-9999999-9999999", "999-9999999-9999999", "123-4567890-1234567"])
        Mode.strict).output
      = (merge_shipping_and_manufacturing_labels
          (some ["Order ID: 999-9999999-9999999", "Order ID: 123-4567890-1234567"])
          (some 3)
          ["999-9999999-9999999", "999-9999999-9999999", "123-4567890-1234567"]).1) ∧
    ((merge_shipping_and_manufacturing_labels_safe
        (some ["Order ID: 999-9999999-9999999", "Order ID: 123-4567890-1234567"])
        (some 3)
        (validate_label_mapping
          (some ["Order ID: 999-9999999-9999999", "Order ID: 123-4567890-1234567"])
          ["999-9999999-9999999", "999-9999999-9999999", "123-4567890-1234567"])
        Mode.strict).output).isSome = true :=
  claim_C10 ["999-9999999-9999999", "999-9999999-9999999", "123-4567890-1234567"]
    ["Order ID: 999-9999999-9999999", "Order ID: 123-4567890-1234567"] 3 Mode.strict
    (by decide)

end ABOD
